import Mathlib

/-!
Shallow embedding of the go-itertools combinator core (itertools.go).

A Go iter.Seq is a push-style sequence: a function that feeds elements, in
order, to a consumer callback until the callback refuses or the elements run
out.  Every combinator below is embedded as a function on the list of
elements the upstream source would feed to a consumer that never refuses
(driving to completion and collecting).  Go panics are embedded as
Except.error carrying the panic message; machine integer arguments are
embedded as Int (no overflow is reachable in any theorem below).
-/

namespace Itertools

set_option autoImplicit false

universe u v

variable {K : Type u} {V : Type v}

/-- The panic message of the shared constant slicePanicMessage in
itertools.go, raised by Slice and Slice2 when step is negative.
The apostrophe of the Go literal is written as the escape \x27. -/
def slicePanicMessage : String := "itertools: step argument can\x27t be negative"

/-- The Go runtime panic message for the integer division by zero that the
expression (i - start) % step performs when step = 0. -/
def divByZeroMessage : String := "runtime error: integer divide by zero"

/-- The panic message of Once in itertools.go on a second drive. -/
def onceMessage : String := "itertools: iterator can only be consumed once"

/-- The drive loop of Slice (itertools.go lines 319-332): the counter i
walks the upstream elements; an element is yielded when
i >= start, i < stop and (i - start) % step == 0 (Go evaluates the modulo
only after the two comparisons hold, and it faults when step = 0); after
the counter is incremented the loop returns as soon as i >= stop.
For i >= start and step > 0 the Go truncated remainder agrees with the
Lean Int remainder, both operands being nonnegative. -/
def sliceLoop (start stop step : Int) : Int → List V → Except String (List V)
  | _, [] => .ok []
  | i, v :: rest =>
    if start ≤ i ∧ i < stop then
      if step = 0 then .error divByZeroMessage
      else if (i - start) % step = 0 then
        if stop ≤ i + 1 then .ok [v]
        else
          match sliceLoop start stop step (i + 1) rest with
          | .ok ys => .ok (v :: ys)
          | .error e => .error e
      else if stop ≤ i + 1 then .ok []
      else sliceLoop start stop step (i + 1) rest
    else if stop ≤ i + 1 then .ok []
    else sliceLoop start stop step (i + 1) rest

/-- Slice (itertools.go lines 314-333).  The step < 0 test runs at
construction time, before the returned sequence is driven; the loop then
runs when the sequence is driven.  The result collects the yielded
elements, or carries the message of the panic that driving (or the
construction itself) raises. -/
def Slice (xs : List V) (start stop step : Int) : Except String (List V) :=
  if step < 0 then .error slicePanicMessage
  else sliceLoop start stop step 0 xs

/-- The drive loop of Slice2 (itertools.go lines 351-364), identical to the
Slice loop but walking key-value pairs. -/
def slice2Loop (start stop step : Int) : Int → List (K × V) → Except String (List (K × V))
  | _, [] => .ok []
  | i, p :: rest =>
    if start ≤ i ∧ i < stop then
      if step = 0 then .error divByZeroMessage
      else if (i - start) % step = 0 then
        if stop ≤ i + 1 then .ok [p]
        else
          match slice2Loop start stop step (i + 1) rest with
          | .ok ys => .ok (p :: ys)
          | .error e => .error e
      else if stop ≤ i + 1 then .ok []
      else slice2Loop start stop step (i + 1) rest
    else if stop ≤ i + 1 then .ok []
    else slice2Loop start stop step (i + 1) rest

/-- Slice2 (itertools.go lines 347-365): its own step < 0 construction-time
check, then the pair drive loop. -/
def Slice2 (ps : List (K × V)) (start stop step : Int) : Except String (List (K × V)) :=
  if step < 0 then .error slicePanicMessage
  else slice2Loop start stop step 0 ps

/-- Take (itertools.go lines 377-379): Slice with start 0, stop n, step 1. -/
def Take (xs : List V) (n : Int) : Except String (List V) :=
  Slice xs 0 n 1

/-- The drive loop of Limit (src/unnamed/part_002 lines 51-61): for every
upstream element the counter is incremented, the element is yielded, and
then the loop returns when the incremented counter has reached the limit.
The yield precedes the bound check, so the first element is yielded even
when limit <= 0. -/
def limitLoop (limit : Int) : Int → List V → List V
  | _, [] => []
  | i, v :: rest =>
    if limit ≤ i + 1 then [v]
    else v :: limitLoop limit (i + 1) rest

/-- Limit (src/unnamed/part_002 lines 51-61). -/
def Limit (xs : List V) (limit : Int) : List V :=
  limitLoop limit 0 xs

/-- Zip (itertools.go lines 240-298).  The two workers feed the elements of
each source, in source order, through rendezvous channels ch1 and ch2; the
main loop receives one element from ch1 then one from ch2 and yields the
pair, stopping (and cancelling via the done channel) as soon as either
channel reports exhaustion, without yielding a partial pair.  The sequence
of yielded pairs is therefore the index-wise pairing of the two element
lists, truncated to the shorter one, which this function computes. -/
def Zip : List K → List V → List (K × V)
  | k :: ks, v :: vs => (k, v) :: Zip ks vs
  | _, _ => []

/-- The first fuel elements that the infinite loop of Count
(itertools.go lines 113-123) yields: cur starts at start and grows by step
after every yield. -/
def countFrom (start step : Int) : Nat → List Int
  | 0 => []
  | n + 1 => start :: countFrom (start + step) step n

/-- The loop of Enumerate (itertools.go lines 543-553): yields (i, v) and
then increments i, starting from 0.  The index is a Go int, embedded Int. -/
def enumLoop (i : Int) : List V → List (Int × V)
  | [] => []
  | v :: rest => (i, v) :: enumLoop (i + 1) rest

/-- Enumerate (itertools.go lines 543-553). -/
def Enumerate (xs : List V) : List (Int × V) :=
  enumLoop 0 xs

/-- TakeWhile (itertools.go lines 406-414): yields elements while the
predicate holds and returns at the first element on which it fails,
without yielding that element. -/
def TakeWhile (p : V → Bool) : List V → List V
  | [] => []
  | v :: rest => if p v then v :: TakeWhile p rest else []

/-- The loop of DropWhile (itertools.go lines 428-441) with its skip flag:
while skip is set, elements satisfying the predicate are passed over; the
first element failing it clears skip and is yielded; with skip clear every
element is yielded unconditionally. -/
def dropWhileLoop (p : V → Bool) : Bool → List V → List V
  | _, [] => []
  | skip, v :: rest =>
    if skip then
      if p v then dropWhileLoop p true rest
      else v :: dropWhileLoop p false rest
    else v :: dropWhileLoop p false rest

/-- DropWhile (itertools.go lines 428-441): the loop started with skip set. -/
def DropWhile (p : V → Bool) (xs : List V) : List V :=
  dropWhileLoop p true xs

/-- One drive attempt of a Once wrapper (itertools.go lines 512-530).
The wrapper owns a consumed flag guarded by a mutex; a drive that finds the
flag set panics with onceMessage, otherwise it sets the flag and feeds the
wrapped elements through.  The mutex makes each attempt atomic, so the
behaviour is this sequential state transformer on the flag: the result of
the attempt together with the new flag value. -/
def onceDrive (consumed : Bool) (xs : List V) : Except String (List V) × Bool :=
  if consumed then (.error onceMessage, consumed)
  else (.ok xs, true)

/-- The index window of the Slice specification: the elements whose
original index i (counted from the given starting index) satisfies
start <= i < stop and (i - start) % step == 0, in their original order. -/
def sliceIndexSpec (start stop step : Int) : Int → List V → List V
  | _, [] => []
  | i, v :: rest =>
    if start ≤ i ∧ i < stop ∧ (i - start) % step = 0 then
      v :: sliceIndexSpec start stop step (i + 1) rest
    else sliceIndexSpec start stop step (i + 1) rest

/-! ### Helper lemmas about the Slice loop -/

/-- Past the stop bound the index window is empty. -/
theorem sliceIndexSpec_eq_nil (start stop step : Int) :
    ∀ (xs : List V) (i : Int), stop ≤ i → sliceIndexSpec start stop step i xs = [] := by
  intro xs
  induction xs with
  | nil => intro i _; rfl
  | cons v rest ih =>
    intro i h
    have hng : ¬(start ≤ i ∧ i < stop ∧ (i - start) % step = 0) := by
      rintro ⟨-, h2, -⟩; omega
    simp only [sliceIndexSpec, if_neg hng]
    exact ih (i + 1) (by omega)

/-- With a positive step the Slice drive loop never faults and collects
exactly the index window, from any starting index. -/
theorem sliceLoop_eq_spec (start stop step : Int) (hstep : 1 ≤ step) :
    ∀ (xs : List V) (i : Int),
      sliceLoop start stop step i xs = .ok (sliceIndexSpec start stop step i xs) := by
  intro xs
  induction xs with
  | nil => intro i; rfl
  | cons v rest ih =>
    intro i
    have hstep0 : ¬step = 0 := by omega
    by_cases hin : start ≤ i ∧ i < stop
    · by_cases hmod : (i - start) % step = 0
      · have hg : start ≤ i ∧ i < stop ∧ (i - start) % step = 0 := ⟨hin.1, hin.2, hmod⟩
        by_cases hstop : stop ≤ i + 1
        · simp only [sliceLoop, if_pos hin, if_neg hstep0, if_pos hmod, if_pos hstop,
            sliceIndexSpec, if_pos hg, sliceIndexSpec_eq_nil start stop step rest (i + 1) hstop]
        · simp only [sliceLoop, if_pos hin, if_neg hstep0, if_pos hmod, if_neg hstop,
            sliceIndexSpec, if_pos hg, ih (i + 1)]
      · have hg : ¬(start ≤ i ∧ i < stop ∧ (i - start) % step = 0) := by
          rintro ⟨-, -, h3⟩; exact hmod h3
        by_cases hstop : stop ≤ i + 1
        · simp only [sliceLoop, if_pos hin, if_neg hstep0, if_neg hmod, if_pos hstop,
            sliceIndexSpec, if_neg hg, sliceIndexSpec_eq_nil start stop step rest (i + 1) hstop]
        · simp only [sliceLoop, if_pos hin, if_neg hstep0, if_neg hmod, if_neg hstop,
            sliceIndexSpec, if_neg hg, ih (i + 1)]
    · have hg : ¬(start ≤ i ∧ i < stop ∧ (i - start) % step = 0) := by
        rintro ⟨h1, h2, -⟩; exact hin ⟨h1, h2⟩
      by_cases hstop : stop ≤ i + 1
      · simp only [sliceLoop, if_neg hin, if_pos hstop,
          sliceIndexSpec, if_neg hg, sliceIndexSpec_eq_nil start stop step rest (i + 1) hstop]
      · simp only [sliceLoop, if_neg hin, if_neg hstop,
          sliceIndexSpec, if_neg hg, ih (i + 1)]

/-- With start 0 and step 1 the index window from index i is the list
prefix of length stop - i, for nonnegative i. -/
theorem sliceIndexSpec_zero_one (n : Int) :
    ∀ (xs : List V) (i : Int), 0 ≤ i →
      sliceIndexSpec 0 n 1 i xs = xs.take (n - i).toNat := by
  intro xs
  induction xs with
  | nil => intro i _; simp [sliceIndexSpec]
  | cons v rest ih =>
    intro i hi
    by_cases hlt : i < n
    · have hg : (0 : Int) ≤ i ∧ i < n ∧ (i - 0) % 1 = 0 := ⟨hi, hlt, by simp [Int.emod_one]⟩
      have hsucc : (n - i).toNat = (n - (i + 1)).toNat + 1 := by omega
      simp only [sliceIndexSpec, if_pos hg, ih (i + 1) (by omega), hsucc, List.take_succ_cons]
    · have hg : ¬((0 : Int) ≤ i ∧ i < n ∧ (i - 0) % 1 = 0) := by
        rintro ⟨-, h2, -⟩; exact hlt h2
      have h0 : (n - i).toNat = 0 := by omega
      have h1 : (n - (i + 1)).toNat = 0 := by omega
      simp only [sliceIndexSpec, if_neg hg, ih (i + 1) (by omega), h0, h1, List.take_zero]

/-! ### Helper lemmas about Limit, Zip, Enumerate, TakeWhile and DropWhile -/

/-- The Limit loop collects the prefix of length max (limit - i) 1:
at least one element is always yielded because the bound is tested only
after the yield. -/
theorem limitLoop_eq_take (lim : Int) :
    ∀ (xs : List V) (i : Int), limitLoop lim i xs = xs.take (max (lim - i) 1).toNat := by
  intro xs
  induction xs with
  | nil => intro i; simp [limitLoop]
  | cons v rest ih =>
    intro i
    by_cases hstop : lim ≤ i + 1
    · have h1 : (max (lim - i) 1).toNat = 1 := by omega
      simp only [limitLoop, if_pos hstop, h1, List.take_succ_cons, List.take_zero]
    · have h1 : (max (lim - i) 1).toNat = (max (lim - (i + 1)) 1).toNat + 1 := by omega
      simp only [limitLoop, if_neg hstop, ih (i + 1), h1, List.take_succ_cons]

/-- Zip yields nothing when its second source is empty. -/
theorem zip_nil_right (ks : List K) : Zip ks ([] : List V) = [] := by
  cases ks <;> rfl

/-- Zip yields exactly as many pairs as the shorter source has elements. -/
theorem zip_length :
    ∀ (A : List K) (B : List V), (Zip A B).length = min A.length B.length := by
  intro A
  induction A with
  | nil => intro B; simp [Zip]
  | cons a as ih =>
    intro B
    cases B with
    | nil => simp [Zip]
    | cons b bs => simp [Zip, ih bs]; omega

/-- Indexing into Zip pairs the elements of the two sources at the same
index, and gives nothing past the shorter source. -/
theorem zip_getElem? :
    ∀ (A : List K) (B : List V) (i : Nat),
      (Zip A B)[i]? = A[i]?.bind fun a => B[i]?.map fun b => (a, b) := by
  intro A
  induction A with
  | nil => intro B i; simp [Zip]
  | cons a as ih =>
    intro B i
    cases B with
    | nil =>
      cases i with
      | zero => simp [Zip]
      | succ j =>
        simp only [Zip, List.getElem?_nil, List.getElem?_cons_succ, Option.map_none]
        cases as[j]? <;> rfl
    | cons b bs =>
      cases i with
      | zero => simp [Zip]
      | succ j => simpa [Zip] using ih bs j

/-- The Enumerate loop started at index i is the pairing against any long
enough prefix of the counting sequence from i with step 1. -/
theorem enumLoop_eq_zip_countFrom :
    ∀ (xs : List V) (i : Int) (m : Nat), xs.length ≤ m →
      enumLoop i xs = Zip (countFrom i 1 m) xs := by
  intro xs
  induction xs with
  | nil => intro i m _; rw [zip_nil_right, enumLoop]
  | cons v rest ih =>
    intro i m hm
    cases m with
    | zero => simp at hm
    | succ m =>
      simp only [countFrom, enumLoop, Zip]
      rw [ih (i + 1) m (by simpa using hm)]

/-- With the skip flag cleared the DropWhile loop yields every element. -/
theorem dropWhileLoop_false (p : V → Bool) :
    ∀ xs : List V, dropWhileLoop p false xs = xs := by
  intro xs
  induction xs with
  | nil => rfl
  | cons v rest ih => simp [dropWhileLoop, ih]

/-- The embedded TakeWhile agrees with List.takeWhile. -/
theorem takeWhile_eq_list (p : V → Bool) :
    ∀ xs : List V, TakeWhile p xs = xs.takeWhile p := by
  intro xs
  induction xs with
  | nil => rfl
  | cons v rest ih =>
    by_cases h : p v <;> simp [TakeWhile, List.takeWhile_cons, h, ih]

/-- The embedded DropWhile agrees with List.dropWhile. -/
theorem dropWhile_eq_list (p : V → Bool) :
    ∀ xs : List V, DropWhile p xs = xs.dropWhile p := by
  intro xs
  induction xs with
  | nil => rfl
  | cons v rest ih =>
    by_cases h : p v
    · simpa [DropWhile, dropWhileLoop, h, List.dropWhile_cons] using ih
    · simp [DropWhile, dropWhileLoop, h, List.dropWhile_cons, dropWhileLoop_false]

/-! ### Claim theorems -/

/-- C1, counterexample: with step = 0 neither Slice nor Slice2 raises the
invalid-argument panic at construction; the construction succeeds, driving
an empty source yields nothing without any error, and driving a nonempty
source faults with the divide-by-zero runtime panic, whose message differs
from the invalid-argument message. -/
theorem slice_step_zero_escapes_construction_check :
    Slice ([] : List Int) 0 1 0 = Except.ok [] ∧
    Slice ([1] : List Int) 0 1 0 = Except.error divByZeroMessage ∧
    Slice2 ([((1 : Int), (1 : Int))]) 0 1 0 = Except.error divByZeroMessage ∧
    divByZeroMessage ≠ slicePanicMessage :=
  ⟨rfl, rfl, rfl, by decide⟩

/-- C1 (amended): for every input sequence and every start and stop,
calling Slice or Slice2 with step < 0 raises the invalid-argument fatal
error naming the step precondition, at construction time, before the
returned sequence is driven; step = 0 instead passes construction and
produces a divide-by-zero runtime panic only when the driven sequence
reaches an in-window index. -/
theorem slice_negative_step_panics_at_construction
    (xs : List V) (ps : List (K × V)) (start stop step : Int) (h : step < 0) :
    Slice xs start stop step = Except.error slicePanicMessage ∧
    Slice2 ps start stop step = Except.error slicePanicMessage := by
  constructor <;> simp [Slice, Slice2, if_pos h]

/-- C1 witness: the amended theorem applied to a concrete sequence and a
concrete negative step. -/
theorem slice_negative_step_panics_at_construction_witness :
    Slice ([1, 2, 3] : List Int) 0 5 (-1) = Except.error slicePanicMessage ∧
    Slice2 ([((1 : Int), (2 : Int))]) 0 5 (-1) = Except.error slicePanicMessage :=
  slice_negative_step_panics_at_construction [1, 2, 3] [((1 : Int), (2 : Int))] 0 5 (-1)
    (by decide)

/-- C2, counterexample: with n = 0 on the one-element source, Limit yields
the first element while Take yields nothing, so Limit and Take do not
agree on every integer bound. -/
theorem limit_zero_yields_first_element :
    Limit ([1] : List Int) 0 = [1] ∧ Take ([1] : List Int) 0 = Except.ok [] :=
  ⟨rfl, rfl⟩

/-- C2 (amended): for every source S and every n >= 1, Limit(S, n) yields
exactly the same elements in the same order as Take(S, n); for n <= 0 the
two differ: Take yields zero elements while Limit still yields the first
element of S when S is nonempty.  Equivalently, stated here, Limit(S, n)
always agrees with Take(S, max(n, 1)), and both equal the list prefix of
length max(n, 1). -/
theorem limit_agrees_with_take_clamped (xs : List V) (n : Int) :
    Take xs (max n 1) = Except.ok (Limit xs n) ∧
    Limit xs n = xs.take (max n 1).toNat := by
  have hL : Limit xs n = xs.take (max n 1).toNat := by
    have h := limitLoop_eq_take n xs 0
    simpa [Limit] using h
  refine ⟨?_, hL⟩
  simp only [Take, Slice, if_neg (by norm_num : ¬(1 : Int) < 0),
    sliceLoop_eq_spec 0 (max n 1) 1 le_rfl xs 0,
    sliceIndexSpec_zero_one (max n 1) xs 0 le_rfl, sub_zero, hL]

/-- C3: Zip(A, B) yields exactly min(length A, length B) pairs, and the
pair at every index i combines the i-th element of A with the i-th element
of B, in increasing index order; past the shorter source there is no pair,
so no partial pair is ever yielded. -/
theorem zip_pairs_same_index_min_length (A : List K) (B : List V) :
    (Zip A B).length = min A.length B.length ∧
    ∀ i : Nat, (Zip A B)[i]? = A[i]?.bind fun a => B[i]?.map fun b => (a, b) :=
  ⟨zip_length A B, fun i => zip_getElem? A B i⟩

/-- C5: for every source and every nonnegative n, Take yields the first
min(n, length) elements: it succeeds with the length-n list prefix, whose
length is min(n, length) and whose k-th element is the k-th source
element. -/
theorem take_yields_min_count (xs : List V) (n : Int) (_h : 0 ≤ n) :
    Take xs n = Except.ok (xs.take n.toNat) ∧
    (xs.take n.toNat).length = min n.toNat xs.length ∧
    ∀ k : Nat, k < n.toNat → (xs.take n.toNat)[k]? = xs[k]? := by
  refine ⟨?_, List.length_take .., ?_⟩
  · simp only [Take, Slice, if_neg (by norm_num : ¬(1 : Int) < 0),
      sliceLoop_eq_spec 0 n 1 le_rfl xs 0,
      sliceIndexSpec_zero_one n xs 0 le_rfl, sub_zero]
  · intro k hk
    rw [List.getElem?_take, if_pos hk]

/-- C5 witness: the theorem applied to a concrete source and bound. -/
theorem take_yields_min_count_witness :
    Take ([1, 2, 3, 4, 5] : List Int) 3 = Except.ok ([1, 2, 3, 4, 5].take 3) ∧
    (([1, 2, 3, 4, 5] : List Int).take 3).length = min 3 5 ∧
    ∀ k : Nat, k < 3 → (([1, 2, 3, 4, 5] : List Int).take 3)[k]? = [1, 2, 3, 4, 5][k]? :=
  take_yields_min_count [1, 2, 3, 4, 5] 3 (by decide)

/-- C6: TakeWhile yields the longest prefix on which the predicate holds
(matching List.takeWhile, excluding the first failing element), DropWhile
yields everything from that first failing element onward (matching
List.dropWhile), and their concatenation restores the source exactly, with
no overlap and no gap. -/
theorem takeWhile_dropWhile_partition (p : V → Bool) (xs : List V) :
    TakeWhile p xs = xs.takeWhile p ∧ DropWhile p xs = xs.dropWhile p ∧
    TakeWhile p xs ++ DropWhile p xs = xs := by
  refine ⟨takeWhile_eq_list p xs, dropWhile_eq_list p xs, ?_⟩
  rw [takeWhile_eq_list p xs, dropWhile_eq_list p xs, List.takeWhile_append_dropWhile p xs]

/-- C7: Enumerate(S) yields the same sequence of (index, element) pairs as
Zip(Count(0, 1), S): pairing S against any long enough finite window of
the infinite counting sequence from 0 with step 1 reproduces Enumerate
exactly. -/
theorem enumerate_eq_zip_count (xs : List V) (m : Nat) (h : xs.length ≤ m) :
    Enumerate xs = Zip (countFrom 0 1 m) xs :=
  enumLoop_eq_zip_countFrom xs 0 m h

/-- C7 witness: the theorem applied to a concrete three-element source and
a five-element counting window. -/
theorem enumerate_eq_zip_count_witness :
    Enumerate (["a", "b", "c"] : List String) = Zip (countFrom 0 1 5) ["a", "b", "c"] :=
  enumerate_eq_zip_count ["a", "b", "c"] 5 (by decide)

/-- C8: for nonnegative start and stop and positive step, Slice yields
exactly the elements whose original index i satisfies start <= i < stop
and (i - start) % step == 0, in original order; and the identity window
Slice(S, 0, length S, 1) yields exactly S. -/
theorem slice_yields_index_window (xs : List V) (start stop step : Int)
    (_h1 : 0 ≤ start) (_h2 : 0 ≤ stop) (h3 : 1 ≤ step) :
    Slice xs start stop step = Except.ok (sliceIndexSpec start stop step 0 xs) ∧
    Slice xs 0 (xs.length : Int) 1 = Except.ok xs := by
  constructor
  · simp only [Slice, if_neg (by omega : ¬step < 0), sliceLoop_eq_spec start stop step h3 xs 0]
  · simp only [Slice, if_neg (by norm_num : ¬(1 : Int) < 0),
      sliceLoop_eq_spec 0 (xs.length : Int) 1 le_rfl xs 0,
      sliceIndexSpec_zero_one (xs.length : Int) xs 0 le_rfl, sub_zero,
      Int.toNat_natCast, List.take_length]

/-- C8 witness: the theorem applied to a concrete source and window. -/
theorem slice_yields_index_window_witness :
    Slice ([10, 11, 12, 13, 14, 15] : List Int) 1 5 2
      = Except.ok (sliceIndexSpec 1 5 2 0 [10, 11, 12, 13, 14, 15]) ∧
    Slice ([10, 11, 12, 13, 14, 15] : List Int) 0 (([10, 11, 12, 13, 14, 15] : List Int).length : Int) 1
      = Except.ok [10, 11, 12, 13, 14, 15] :=
  slice_yields_index_window [10, 11, 12, 13, 14, 15] 1 5 2 (by decide) (by decide) (by decide)

/-- C9: the first drive of a Once wrapper yields exactly the elements of
the wrapped source in order and sets the consumed flag; a drive that finds
the flag set panics with the reuse-violation message; and every drive
leaves the flag set, so every subsequent attempt panics. -/
theorem once_first_drive_succeeds_second_panics (xs : List V) :
    onceDrive false xs = (Except.ok xs, true) ∧
    onceDrive true xs = (Except.error onceMessage, true) ∧
    ∀ c : Bool, (onceDrive c xs).2 = true := by
  refine ⟨rfl, rfl, ?_⟩
  intro c
  cases c <;> rfl

/-- C10: for every source and every negative n, Take yields zero elements
and completes without raising any error: the negative bound behaves as an
empty window, not as a fatal error. -/
theorem take_negative_yields_nothing (xs : List V) (n : Int) (h : n < 0) :
    Take xs n = Except.ok [] := by
  have h0 : n.toNat = 0 := by omega
  simp only [Take, Slice, if_neg (by norm_num : ¬(1 : Int) < 0),
    sliceLoop_eq_spec 0 n 1 le_rfl xs 0,
    sliceIndexSpec_zero_one n xs 0 le_rfl, sub_zero, h0, List.take_zero]

/-- C10 witness: the theorem applied to a concrete source and a concrete
negative bound. -/
theorem take_negative_yields_nothing_witness :
    Take ([1, 2] : List Int) (-3) = Except.ok [] :=
  take_negative_yields_nothing [1, 2] (-3) (by decide)

end Itertools
